import Mathlib

/-!
Verification development for the two-pass Intel 4004 assembler
(`scripts/asm4004.py`).  The Python source is shallowly embedded: lines
are `List Char`, Python `int` is `Int`, `bytearray` is `List Nat` (each
element a byte value), exceptions are `Except AsmError`, and file I/O is
abstracted into explicit outcome flags.  All definitions follow the
Python source line by line; definitions whose names end in `Spec` follow
the natural-language specification instead and are compared with the
source-derived definitions.
-/

namespace Asm4004

deriving instance DecidableEq for Except

/-! ## Character and string utilities (`asm4004.py` lines 82-129) -/

/-- Characters stripped by Python `str.strip()` and matched by `\s`
(ASCII; the assembler processes ASCII source). -/
def isPySpace (c : Char) : Bool :=
  c == ' ' || c == '\t' || c == '\n' || c == '\r' || c == '\x0b' || c == '\x0c'

/-- Python `str.strip()`: drop leading and trailing whitespace. -/
def trim (s : List Char) : List Char :=
  ((s.dropWhile isPySpace).reverse.dropWhile isPySpace).reverse

/-- Python `str.upper()` on ASCII text (`to_upper`, line 82). -/
def toUpperStr (s : List Char) : List Char :=
  s.map Char.toUpper

/-- The `remove_comment` helper (line 88): text before the first `;`,
trimmed. -/
def removeComment (line : List Char) : List Char :=
  if line.contains ';' then trim (line.takeWhile (fun c => c != ';'))
  else trim line

/-- The `normalize_symbol` helper (line 93): uppercase of the trimmed name. -/
def normalizeSymbol (s : List Char) : List Char :=
  toUpperStr (trim s)

/-- Python `s.split(',')`: every maximal comma-free segment, in order;
the empty string yields one empty segment. -/
def splitCommaAux : List Char → List Char → List (List Char)
  | acc, [] => [acc]
  | acc, c :: cs =>
    if c = ',' then acc :: splitCommaAux [] cs
    else splitCommaAux (acc ++ [c]) cs

/-- Python `s.split(',')`. -/
def splitComma (s : List Char) : List (List Char) :=
  splitCommaAux [] s

/-- Value of a hexadecimal digit character, if any. -/
def hexDigitVal (c : Char) : Option Nat :=
  if c.isDigit then some (c.toNat - 48)
  else if 'a' ≤ c ∧ c ≤ 'f' then some (c.toNat - 87)
  else if 'A' ≤ c ∧ c ≤ 'F' then some (c.toNat - 55)
  else none

/-- Accumulate the value of a digit string in the given base; `none` on a
character that is not a digit of that base. -/
def digitsValAux (base : Nat) : Nat → List Char → Option Nat
  | acc, [] => some acc
  | acc, c :: cs =>
    match hexDigitVal c with
    | some d => if d < base then digitsValAux base (acc * base + d) cs else none
    | none => none

/-- Value of a non-empty digit string in the given base. -/
def digitsVal (base : Nat) (ds : List Char) : Option Nat :=
  if ds = [] then none else digitsValAux base 0 ds

/-- Python `int(s, base)` accepts the matching radix tag (`0x`/`0X` for
base 16, `0b`/`0B` for base 2) after the optional sign; drop it. -/
def dropRadixTag (base : Nat) (s : List Char) : List Char :=
  if base = 16 then
    match s with
    | '0' :: c :: rest => if c = 'x' ∨ c = 'X' then rest else s
    | _ => s
  else if base = 2 then
    match s with
    | '0' :: c :: rest => if c = 'b' ∨ c = 'B' then rest else s
    | _ => s
  else s

/-- Models Python `int(s, base)` for bases 2, 10, 16: surrounding
whitespace, an optional sign, an optional radix tag, then at least one
digit.  (Digit-group underscores accepted by CPython are not modelled;
the assembler grammar never produces them.) -/
def pyInt (base : Nat) (s0 : List Char) : Option Int :=
  let s := trim s0
  match s with
  | '+' :: rest => (digitsVal base (dropRadixTag base rest)).map (fun n => (n : Int))
  | '-' :: rest => (digitsVal base (dropRadixTag base rest)).map (fun n => -(n : Int))
  | _ => (digitsVal base (dropRadixTag base s)).map (fun n => (n : Int))

/-- Does the list start with the two given characters? -/
def startsWith2 (s : List Char) (a b : Char) : Bool :=
  match s with
  | x :: y :: _ => x == a && y == b
  | _ => false

/-- The `parse_number` helper (lines 96-111): `0x`/`0X` prefix, `$`
prefix, `h`/`H` suffix (all hexadecimal), `0b`/`0B` prefix (binary),
else decimal; `none` when `int` raises `ValueError`. -/
def parse_number (s0 : List Char) : Option Int :=
  let s := trim s0
  if s = [] then none
  else if startsWith2 s '0' 'x' || startsWith2 s '0' 'X' then pyInt 16 s
  else if (match s with | c :: _ => c == '$' | [] => false) then pyInt 16 (s.drop 1)
  else if (match s.getLast? with | some c => c == 'h' || c == 'H' | none => false) then
    pyInt 16 s.dropLast
  else if startsWith2 s '0' 'b' || startsWith2 s '0' 'B' then pyInt 2 s
  else pyInt 10 s

/-- The `parse_register` helper (lines 113-119): `R` followed by a
number in `0..15`. -/
def parse_register (s0 : List Char) : Option Int :=
  let s := toUpperStr (trim s0)
  match s with
  | 'R' :: rest =>
    match parse_number rest with
    | some v => if 0 ≤ v ∧ v ≤ 15 then some v else none
    | none => none
  | _ => none

/-- The `parse_register_pair` helper (lines 121-129): the regular
expression `^R(\d{1,2})R(\d{1,2})$` (which matches deterministically:
each digit group is the maximal digit run, of length 1 or 2), requiring
an even first register and the adjacent odd second register; yields the
pair index. -/
def parse_register_pair (s0 : List Char) : Option Int :=
  let s := toUpperStr (trim s0)
  match s with
  | 'R' :: rest =>
    let ds1 := rest.takeWhile Char.isDigit
    let rest1 := rest.dropWhile Char.isDigit
    if ds1.length = 0 ∨ ds1.length > 2 then none
    else
      match rest1 with
      | 'R' :: rest2 =>
        let ds2 := rest2.takeWhile Char.isDigit
        if ds2.length = 0 ∨ ds2.length > 2 ∨ rest2.dropWhile Char.isDigit ≠ [] then none
        else
          match digitsVal 10 ds1, digitsVal 10 ds2 with
          | some r1, some r2 =>
            if r1 % 2 = 0 ∧ r2 = r1 + 1 then some ((r1 / 2 : Nat) : Int) else none
          | _, _ => none
      | _ => none
  | _ => none

/-! ## Instruction table (`asm4004.py` lines 11-76) -/

/-- The `OperandType` enumeration (lines 11-18). -/
inductive OperandType where
  | NONE
  | REGISTER
  | REGISTER_PAIR
  | IMMEDIATE
  | ADDRESS
  | CONDITION
  | DATA_BYTE
deriving DecidableEq

/-- One `INSTRUCTION_SET` entry: `(base_opcode, operand_type, operand_bits)`. -/
structure InstSpec where
  opcode : Nat
  ty : OperandType
  bits : Nat
deriving DecidableEq

/-- The `INSTRUCTION_SET` table (lines 21-76). -/
def INSTRUCTION_SET : List (List Char × InstSpec) := [
  ("NOP".toList, ⟨0x00, .NONE, 0⟩),
  ("WRM".toList, ⟨0xE0, .NONE, 0⟩),
  ("WMP".toList, ⟨0xE1, .NONE, 0⟩),
  ("WRR".toList, ⟨0xE2, .NONE, 0⟩),
  ("WR0".toList, ⟨0xE4, .NONE, 0⟩),
  ("WR1".toList, ⟨0xE5, .NONE, 0⟩),
  ("WR2".toList, ⟨0xE6, .NONE, 0⟩),
  ("WR3".toList, ⟨0xE7, .NONE, 0⟩),
  ("SBM".toList, ⟨0xE8, .NONE, 0⟩),
  ("RDM".toList, ⟨0xE9, .NONE, 0⟩),
  ("RDR".toList, ⟨0xEA, .NONE, 0⟩),
  ("ADM".toList, ⟨0xEB, .NONE, 0⟩),
  ("RD0".toList, ⟨0xEC, .NONE, 0⟩),
  ("RD1".toList, ⟨0xED, .NONE, 0⟩),
  ("RD2".toList, ⟨0xEE, .NONE, 0⟩),
  ("RD3".toList, ⟨0xEF, .NONE, 0⟩),
  ("CLB".toList, ⟨0xF0, .NONE, 0⟩),
  ("CLC".toList, ⟨0xF1, .NONE, 0⟩),
  ("IAC".toList, ⟨0xF2, .NONE, 0⟩),
  ("CMC".toList, ⟨0xF3, .NONE, 0⟩),
  ("CMA".toList, ⟨0xF4, .NONE, 0⟩),
  ("RAL".toList, ⟨0xF5, .NONE, 0⟩),
  ("RAR".toList, ⟨0xF6, .NONE, 0⟩),
  ("TCC".toList, ⟨0xF7, .NONE, 0⟩),
  ("DAC".toList, ⟨0xF8, .NONE, 0⟩),
  ("TCS".toList, ⟨0xF9, .NONE, 0⟩),
  ("STC".toList, ⟨0xFA, .NONE, 0⟩),
  ("DAA".toList, ⟨0xFB, .NONE, 0⟩),
  ("KBP".toList, ⟨0xFC, .NONE, 0⟩),
  ("DCL".toList, ⟨0xFD, .NONE, 0⟩),
  ("SRC".toList, ⟨0x21, .REGISTER_PAIR, 0⟩),
  ("JIN".toList, ⟨0x31, .REGISTER_PAIR, 0⟩),
  ("INC".toList, ⟨0x60, .REGISTER, 4⟩),
  ("ADD".toList, ⟨0x80, .REGISTER, 4⟩),
  ("SUB".toList, ⟨0x90, .REGISTER, 4⟩),
  ("LD".toList, ⟨0xA0, .REGISTER, 4⟩),
  ("XCH".toList, ⟨0xB0, .REGISTER, 4⟩),
  ("FIN".toList, ⟨0x30, .REGISTER_PAIR, 4⟩),
  ("BBL".toList, ⟨0xC0, .IMMEDIATE, 4⟩),
  ("LDM".toList, ⟨0xD0, .IMMEDIATE, 4⟩),
  ("FIM".toList, ⟨0x20, .REGISTER_PAIR, 4⟩),
  ("JCN".toList, ⟨0x10, .CONDITION, 4⟩),
  ("JUN".toList, ⟨0x40, .ADDRESS, 12⟩),
  ("JMS".toList, ⟨0x50, .ADDRESS, 12⟩),
  ("ISZ".toList, ⟨0x70, .REGISTER, 8⟩)
]

/-- Python `mnemonic in INSTRUCTION_SET` / `INSTRUCTION_SET[mnemonic]`. -/
def lookupInst (m : List Char) : Option InstSpec :=
  (INSTRUCTION_SET.find? (fun p => p.1 == m)).map (fun p => p.2)

/-! ## Assembler state, errors, symbol table -/

/-- One listing record: line number, resolved address (absent for
non-code lines), and the bytes emitted for the line.  The textual
formatting of `self.listing` strings is not modelled; each appended
string is represented by the data it displays. -/
structure ListingRec where
  ln : Nat
  addr : Option Int
  bytes : List Nat
deriving DecidableEq

/-- The distinct `ValueError` messages raised by the assembler, plus the
`IOError`→`ValueError` conversion of `write_binary`; each carries the
line number it cites. -/
inductive AsmError where
  | missingValue (ln : Nat)
  | unknownSymbol (ln : Nat)
  | equWithoutLabel (ln : Nat)
  | unknownInstruction (ln : Nat)
  | iszOperands (ln : Nat)
  | invalidIszRegister (ln : Nat)
  | invalidRegister (ln : Nat)
  | fimOperands (ln : Nat)
  | invalidFimRegister (ln : Nat)
  | invalidRegisterPair (ln : Nat)
  | jcnOperands (ln : Nat)
deriving DecidableEq

/-- The symbol table: insertion-ordered association list from normalized
names to values (models a Python `dict`, whose update keeps the original
position of an existing key). -/
abbrev Symtab := List (List Char × Int)

/-- Python dict lookup `self.symbols[key]` guarded by `key in self.symbols`. -/
def lookupSym (t : Symtab) (k : List Char) : Option Int :=
  (t.find? (fun p => p.1 == k)).map (fun p => p.2)

/-- Python dict upsert: overwrite in place, else append. -/
def upsert : Symtab → List Char → Int → Symtab
  | [], k, v => [(k, v)]
  | p :: rest, k, v => if p.1 == k then (k, v) :: rest else p :: upsert rest k v

/-- The `store_symbol` method (line 230): upsert under the normalized name. -/
def store_symbol (t : Symtab) (name : List Char) (v : Int) : Symtab :=
  upsert t (normalizeSymbol name) v

/-- The mutable fields of the `Assembler` object (lines 136-144). -/
structure AsmState where
  symbols : Symtab
  binary : List Nat
  listing : List ListingRec
  current_address : Int
  org_address : Int
  line_number : Nat
  last_label : Option (List Char)
deriving DecidableEq

/-- The freshly constructed `Assembler` (lines 136-144). -/
def initAsm : AsmState :=
  { symbols := [], binary := [], listing := [], current_address := 0,
    org_address := 0, line_number := 0, last_label := none }

/-! ## Expression evaluation (`asm4004.py` lines 175-251) -/

/-- The `resolve_simple_value` method (lines 175-188): numeric literal,
then register literal, then symbol lookup. -/
def resolve_simple_value (syms : Symtab) (token0 : List Char) : Option Int :=
  let token := trim token0
  if token = [] then none
  else
    match parse_number token with
    | some v => some v
    | none =>
      match parse_register token with
      | some r => some r
      | none => lookupSym syms (normalizeSymbol token)

/-- The character loop of `evaluate_expression` (lines 194-216):
arguments are the remaining characters, the running total, the
accumulated term, the pending sign, and the seen-a-term flag. -/
def evalLoop (syms : Symtab) : List Char → Int → List Char → Int → Bool → Option Int
  | [], total, term, sign, seen =>
    if term = [] then (if seen then some total else none)
    else
      match resolve_simple_value syms term with
      | none => none
      | some v => some (total + sign * v)
  | c :: cs, total, term, sign, seen =>
    if c = '+' ∨ c = '-' then
      let newSign : Int := if c = '+' then 1 else -1
      if term = [] then evalLoop syms cs total [] newSign seen
      else
        match resolve_simple_value syms term with
        | none => none
        | some v => evalLoop syms cs (total + sign * v) [] newSign true
    else evalLoop syms cs total (term ++ [c]) sign seen

/-- The `evaluate_expression` method (lines 190-216): remove space
characters, require a `+` or `-` somewhere, then run the signed
accumulation loop. -/
def evaluate_expression (syms : Symtab) (expr : List Char) : Option Int :=
  let e := expr.filter (fun c => c != ' ')
  if e = [] ∨ (¬ e.contains '+' ∧ ¬ e.contains '-') then none
  else evalLoop syms e 0 [] 1 false

/-- The `resolve_value` method (lines 218-228): simple resolution, then
expression resolution, else a `ValueError` citing the line number. -/
def resolve_value (syms : Symtab) (ln : Nat) (s : List Char) : Except AsmError Int :=
  let token := trim s
  if token = [] then .error (.missingValue ln)
  else
    match resolve_simple_value syms token with
    | some v => .ok v
    | none =>
      match evaluate_expression syms token with
      | some v => .ok v
      | none => .error (.unknownSymbol ln)

/-- The `resolve_register` method (lines 233-242): register literal, or
a defined symbol whose value lies in `0..15`. -/
def resolve_register (syms : Symtab) (token : List Char) : Option Int :=
  match parse_register token with
  | some r => some r
  | none =>
    match lookupSym syms (normalizeSymbol token) with
    | some v => if 0 ≤ v ∧ v ≤ 15 then some v else none
    | none => none

/-- The `resolve_register_pair` method (lines 244-251): compound pair
literal, or any register-resolvable token with an even value, halved. -/
def resolve_register_pair (syms : Symtab) (token : List Char) : Option Int :=
  match parse_register_pair token with
  | some p => some p
  | none =>
    match resolve_register syms token with
    | some r => if r % 2 = 0 then some (r / 2) else none
    | none => none

/-! ## Byte-field masking

Python `&`, `>>` on possibly negative `int`s use two's-complement
semantics: `a & 0xFF` is `a` modulo 256 and `a >> 8` is floor division
by 256; `Int.emod` and `Int.fdiv` match them for positive divisors. -/

/-- Python `v & 0x0F`. -/
def mask4 (i : Int) : Nat := (i % 16).toNat

/-- Python `v & 0xFF`. -/
def mask8 (i : Int) : Nat := (i % 256).toNat

/-- Python `v & 0x07`. -/
def mask3 (i : Int) : Nat := (i % 8).toNat

/-- Python `(addr >> 8) & 0x0F`. -/
def hi4 (i : Int) : Nat := mask4 (Int.fdiv i 256)

/-! ## Inline-`EQU` recognizer -/

/-- Python regex `\w` on ASCII text. -/
def isWordChar (c : Char) : Bool := c.isAlphanum || c == '_'

/-- Start character of the identifier group `[A-Za-z_]`. -/
def isIdentStart (c : Char) : Bool := c.isAlpha || c == '_'

/-- Models `re.match(r'(?i)^\s*([A-Za-z_][\w]*)\s+EQU\s+(.+)$', line)`
(lines 277 and 388), yielding the two captured groups.  The match is
deterministic except when the text ends in whitespace after `EQU`, where
the trailing `\s+(.+)$` backtracks so that the final whitespace
character becomes group 2; assembler lines are pre-trimmed, but the
case is modelled for fidelity.  (Lines never contain a newline, so `.`
matches every remaining character.) -/
def equInline (line : List Char) : Option (List Char × List Char) :=
  let s := line.dropWhile isPySpace
  match s with
  | [] => none
  | c :: _ =>
    if isIdentStart c then
      let ident := s.takeWhile isWordChar
      let rest1 := s.dropWhile isWordChar
      let rest2 := rest1.dropWhile isPySpace
      if rest1.length = rest2.length then none
      else
        match rest2 with
        | e :: q :: u :: rest3 =>
          if Char.toUpper e = 'E' ∧ Char.toUpper q = 'Q' ∧ Char.toUpper u = 'U' then
            let ws2 := rest3.takeWhile isPySpace
            let rest4 := rest3.dropWhile isPySpace
            if ws2 = [] then none
            else if rest4 ≠ [] then some (ident, rest4)
            else if ws2.length ≥ 2 then some (ident, ws2.drop (ws2.length - 1))
            else none
          else none
        | _ => none
    else none

/-! ## Instruction encoding (`asm4004.py` lines 425-506) -/

/-- The `assemble_instruction` method: dispatch on the operand type with
the `ISZ` and `FIM` special cases. -/
def assemble_instruction (syms : Symtab) (ln : Nat) (mnemonic : List Char)
    (inst : InstSpec) (operand_str : List Char) : Except AsmError (List Nat) :=
  match inst.ty with
  | .NONE => .ok [inst.opcode]
  | .REGISTER =>
    if mnemonic = "ISZ".toList then
      match (splitComma operand_str).map trim with
      | [p0, p1] =>
        match resolve_register syms p0 with
        | none => .error (.invalidIszRegister ln)
        | some reg =>
          match resolve_value syms ln p1 with
          | .error e => .error e
          | .ok addr => .ok [inst.opcode ||| mask4 reg, mask8 addr]
      | _ => .error (.iszOperands ln)
    else
      match resolve_register syms operand_str with
      | none => .error (.invalidRegister ln)
      | some reg => .ok [inst.opcode ||| mask4 reg]
  | .REGISTER_PAIR =>
    if mnemonic = "FIM".toList then
      match (splitComma operand_str).map trim with
      | [p0, p1] =>
        match resolve_register_pair syms p0 with
        | none => .error (.invalidFimRegister ln)
        | some pair =>
          match resolve_value syms ln p1 with
          | .error e => .error e
          | .ok imm => .ok [inst.opcode ||| mask3 pair, mask8 imm]
      | [p0, p1, p2] =>
        match resolve_register_pair syms p0 with
        | none => .error (.invalidFimRegister ln)
        | some pair =>
          match resolve_value syms ln p1 with
          | .error e => .error e
          | .ok hi =>
            match resolve_value syms ln p2 with
            | .error e => .error e
            | .ok lo =>
              .ok [inst.opcode ||| mask3 pair, ((mask4 hi <<< 4) ||| mask4 lo) &&& 0xFF]
      | _ => .error (.fimOperands ln)
    else
      match resolve_register_pair syms operand_str with
      | none => .error (.invalidRegisterPair ln)
      | some pair => .ok [inst.opcode ||| mask3 pair]
  | .IMMEDIATE =>
    match resolve_value syms ln operand_str with
    | .error e => .error e
    | .ok v => .ok [inst.opcode ||| mask4 v]
  | .CONDITION =>
    match (splitComma operand_str).map trim with
    | [p0, p1] =>
      match resolve_value syms ln p0 with
      | .error e => .error e
      | .ok cond =>
        match resolve_value syms ln p1 with
        | .error e => .error e
        | .ok addr => .ok [inst.opcode ||| mask4 cond, mask8 addr]
    | _ => .error (.jcnOperands ln)
  | .ADDRESS =>
    match resolve_value syms ln operand_str with
    | .error e => .error e
    | .ok addr => .ok [inst.opcode ||| hi4 addr, mask8 addr]
  | .DATA_BYTE => .ok []

/-! ## Line-level parsing shared by both passes -/

/-- The post-label content of a line: both passes split at the first `:`
and keep the trimmed remainder (lines 268-273 and 359-361). -/
def contentOf (line : List Char) : List Char :=
  if line.contains ':' then trim ((line.dropWhile (fun c => c != ':')).drop 1)
  else line

/-- First word of a (trimmed, non-empty) line: `line.split(maxsplit=1)[0]`. -/
def firstWord (line : List Char) : List Char :=
  line.takeWhile (fun c => !(isPySpace c))

/-- Trimmed remainder after the first word:
`trim(line.split(maxsplit=1)[1])`, the empty string when absent. -/
def restWords (line : List Char) : List Char :=
  trim (line.dropWhile (fun c => !(isPySpace c)))

/-! ## Pass 1 (`asm4004.py` lines 253-339) -/

/-- The byte count Pass 1 adds to the cursor for a recognized mnemonic
(lines 320-330): 2 for opcodes in `0x40..0x5F` (`JUN`/`JMS`) and for
`FIM`/`ISZ`/`JCN`, otherwise 1. -/
def pass1InstrAdvance (mnemonic : List Char) (spec : InstSpec) : Nat :=
  if 0x40 ≤ spec.opcode ∧ spec.opcode < 0x60 then 2
  else if mnemonic = "FIM".toList then 2
  else if mnemonic = "ISZ".toList then 2
  else if mnemonic = "JCN".toList then 2
  else 1

/-- The Pass-1 label binding (lines 268-273): a line containing `:`
binds the normalized text before the first `:` to the current address
and remembers it as the last label. -/
def pass1LabelBind (st : AsmState) (line : List Char) : AsmState :=
  if line.contains ':' then
    let lab := normalizeSymbol (line.takeWhile (fun c => c != ':'))
    { st with symbols := store_symbol st.symbols lab st.current_address,
              last_label := some lab }
  else st

/-- One Pass-1 loop iteration (lines 261-332): bind labels, handle
inline `EQU`, `ORG`, `EQU`, `DB`/`BYTE`, `DW`/`WORD`, advance the
cursor for known mnemonics, and silently skip unknown ones (the
warning is a print, not state). -/
def pass1Step (st0 : AsmState) (raw : List Char) : Except AsmError AsmState :=
  let st := { st0 with line_number := st0.line_number + 1 }
  let line := removeComment raw
  if line = [] then .ok st
  else
    let st := pass1LabelBind st line
    let content := contentOf line
    if content = [] then .ok st
    else
      match equInline content with
      | some (ident, valueStr) =>
        let sym := normalizeSymbol ident
        match resolve_value st.symbols st.line_number (trim valueStr) with
        | .error e => .error e
        | .ok v =>
          .ok { st with symbols := store_symbol st.symbols sym v, last_label := some sym }
      | none =>
        let mnemonic := toUpperStr (firstWord content)
        let operand_str := restWords content
        if mnemonic = "ORG".toList then
          match resolve_value st.symbols st.line_number operand_str with
          | .error e => .error e
          | .ok v => .ok { st with current_address := v, org_address := v }
        else if mnemonic = "EQU".toList then
          match st.last_label with
          | none => .error (.equWithoutLabel st.line_number)
          | some lab =>
            if lab = [] then .error (.equWithoutLabel st.line_number)
            else
              match resolve_value st.symbols st.line_number operand_str with
              | .error e => .error e
              | .ok v => .ok { st with symbols := store_symbol st.symbols lab v }
        else if mnemonic = "DB".toList ∨ mnemonic = "BYTE".toList then
          .ok { st with current_address :=
                  st.current_address + ((splitComma operand_str).length : Int) }
        else if mnemonic = "DW".toList ∨ mnemonic = "WORD".toList then
          .ok { st with current_address :=
                  st.current_address + 2 * ((splitComma operand_str).length : Int) }
        else
          match lookupInst mnemonic with
          | some spec =>
            .ok { st with current_address :=
                    st.current_address + (pass1InstrAdvance mnemonic spec : Int) }
          | none => .ok st

/-- The Pass-1 line loop. -/
def pass1Fold : AsmState → List (List Char) → Except AsmError AsmState
  | st, [] => .ok st
  | st, l :: ls =>
    match pass1Step st l with
    | .error e => .error e
    | .ok st' => pass1Fold st' ls

/-- The `pass_one` method (lines 253-339), including its state resets. -/
def pass_one (st : AsmState) (lines : List (List Char)) : Except AsmError AsmState :=
  pass1Fold { st with line_number := 0, current_address := 0, last_label := none } lines

/-! ## Pass 2 (`asm4004.py` lines 341-423) -/

/-- The `DB` emission loop (lines 393-396): one masked byte per
comma-separated operand. -/
def emitBytesDB (syms : Symtab) (ln : Nat) : List (List Char) → Except AsmError (List Nat)
  | [] => .ok []
  | p :: ps =>
    match resolve_value syms ln (trim p) with
    | .error e => .error e
    | .ok v =>
      match emitBytesDB syms ln ps with
      | .error e => .error e
      | .ok rest => .ok (mask8 v :: rest)

/-- The `DW` emission loop (lines 398-402): low byte then high byte per
comma-separated operand. -/
def emitBytesDW (syms : Symtab) (ln : Nat) : List (List Char) → Except AsmError (List Nat)
  | [] => .ok []
  | p :: ps =>
    match resolve_value syms ln (trim p) with
    | .error e => .error e
    | .ok v =>
      match emitBytesDW syms ln ps with
      | .error e => .error e
      | .ok rest => .ok (mask8 v :: mask8 (Int.fdiv v 256) :: rest)

/-- The common success tail of a Pass-2 emitting line (lines 412-418):
append the bytes to the binary, advance the cursor by their count, and
record them in the listing at the line's start address (the cursor has
not moved since `start_addr` was taken, so `start_addr` is
`st.current_address` here). -/
def emitUpdate (st : AsmState) (bs : List Nat) : AsmState :=
  { st with binary := st.binary ++ bs,
            current_address := st.current_address + (bs.length : Int),
            listing := st.listing ++ [⟨st.line_number, some st.current_address, bs⟩] }

/-- One Pass-2 loop iteration (lines 350-421): skip blank and label-only
lines (recording a listing entry), handle `ORG` with zero-padding,
record `EQU` lines, emit data or instruction bytes, append them to the
binary, and advance the cursor by the bytes emitted.  (Python computes
`bytes_out` first and then runs one shared append, lines 412-418; here
the shared tail `emitUpdate` is written at the end of each emitting
branch, which is the same control flow.) -/
def pass2Step (st0 : AsmState) (raw : List Char) : Except AsmError AsmState :=
  let st := { st0 with line_number := st0.line_number + 1 }
  let line := removeComment raw
  if line = [] then
    .ok { st with listing := st.listing ++ [⟨st.line_number, none, []⟩] }
  else
    let content := contentOf line
    if content = [] then
      .ok { st with listing := st.listing ++ [⟨st.line_number, none, []⟩] }
    else
      let start_addr := st.current_address
      let mnemonic := toUpperStr (firstWord content)
      let operand_str := restWords content
      if mnemonic = "ORG".toList then
        match resolve_value st.symbols st.line_number operand_str with
        | .error e => .error e
        | .ok v =>
          let padded :=
            if (st.binary.length : Int) < v then
              st.binary ++ List.replicate (v - (st.binary.length : Int)).toNat 0
            else st.binary
          .ok { st with current_address := v, binary := padded,
                        listing := st.listing ++ [⟨st.line_number, some start_addr, []⟩] }
      else if mnemonic = "EQU".toList then
        .ok { st with listing := st.listing ++ [⟨st.line_number, none, []⟩] }
      else
        match equInline content with
        | some _ =>
          .ok { st with listing := st.listing ++ [⟨st.line_number, none, []⟩] }
        | none =>
          if mnemonic = "DB".toList ∨ mnemonic = "BYTE".toList then
            match emitBytesDB st.symbols st.line_number (splitComma operand_str) with
            | .error e => .error e
            | .ok bs => .ok (emitUpdate st bs)
          else if mnemonic = "DW".toList ∨ mnemonic = "WORD".toList then
            match emitBytesDW st.symbols st.line_number (splitComma operand_str) with
            | .error e => .error e
            | .ok bs => .ok (emitUpdate st bs)
          else
            match lookupInst mnemonic with
            | none => .error (.unknownInstruction st.line_number)
            | some spec =>
              match assemble_instruction st.symbols st.line_number mnemonic spec operand_str with
              | .error e => .error e
              | .ok bs => .ok (emitUpdate st bs)

/-- The Pass-2 line loop. -/
def pass2Fold : AsmState → List (List Char) → Except AsmError AsmState
  | st, [] => .ok st
  | st, l :: ls =>
    match pass2Step st l with
    | .error e => .error e
    | .ok st' => pass2Fold st' ls

/-- The `pass_two` method (lines 341-423), including its state resets:
note that the cursor restarts from `org_address`, not from 0 (line 346). -/
def pass_two (st : AsmState) (lines : List (List Char)) : Except AsmError AsmState :=
  pass2Fold { st with line_number := 0, current_address := st.org_address,
                      binary := [], listing := [] } lines

/-- Both passes in sequence over the same lines, as `assemble_file`
runs them (lines 154-160). -/
def assembleProgram (lines : List (List Char)) : Except AsmError AsmState :=
  match pass_one initAsm lines with
  | .error e => .error e
  | .ok st1 => pass_two st1 lines

/-! ## The whole-run model of `assemble_file` (lines 146-173)

File I/O is abstracted: `inputLines = none` models an unreadable source
file; `binWritable` models whether `write_binary` succeeds;
`listingRequested` models a non-empty listing path; `listingWritable`
models whether `write_listing` succeeds.  `write_listing` catches its
own `IOError` and only prints a warning (lines 538-539), so a failed
listing write leaves the already-written binary in place and the run
still returns `True`. -/

/-- Observable outcome of one `assemble_file` run. -/
structure RunOutcome where
  success : Bool
  binaryWritten : Bool
  listingWritten : Bool
deriving DecidableEq

/-- The `assemble_file` control flow (lines 146-173). -/
def assemble_file (inputLines : Option (List (List Char))) (binWritable : Bool)
    (listingRequested : Bool) (listingWritable : Bool) : RunOutcome :=
  match inputLines with
  | none => ⟨false, false, false⟩
  | some lines =>
    match assembleProgram lines with
    | .error _ => ⟨false, false, false⟩
    | .ok _ =>
      if binWritable then
        if listingRequested then ⟨true, true, listingWritable⟩
        else ⟨true, true, false⟩
      else ⟨false, false, false⟩

/-! ## Address traces (instrumentation of the two passes)

Pass 1 assigns a line the cursor value in force when the line is
reached (that value is what a label on the line is bound to); Pass 2
records `start_addr` per line in the listing.  `pass1Trace` exposes the
former for comparison with the latter. -/

/-- Cursor value at the start of each Pass-1 iteration, per line. -/
def pass1TraceAux : AsmState → List (List Char) → Except AsmError (List Int)
  | _, [] => .ok []
  | st, l :: ls =>
    match pass1Step st l with
    | .error e => .error e
    | .ok st' =>
      match pass1TraceAux st' ls with
      | .error e => .error e
      | .ok t => .ok (st.current_address :: t)

/-- Per-line Pass-1 addresses of a program, from the same initial state
`pass_one` uses. -/
def pass1Trace (lines : List (List Char)) : Except AsmError (List Int) :=
  pass1TraceAux { initAsm with line_number := 0, current_address := 0, last_label := none } lines

/-- Per-line Pass-2 addresses of a successfully assembled program: the
`addr` field of each listing record (absent for blank, label-only and
`EQU` lines). -/
def pass2Addrs (lines : List (List Char)) : Option (List (Option Int)) :=
  match assembleProgram lines with
  | .error _ => none
  | .ok st => some (st.listing.map (fun r => r.addr))

/-- Final binary of a successful run, `none` on failure. -/
def binaryOf (lines : List (List Char)) : Option (List Nat) :=
  match assembleProgram lines with
  | .error _ => none
  | .ok st => some st.binary

/-! ## Specification-side expression evaluator (spec §4.2)

These definitions follow the specification's words — "splits into
signed terms, each resolved via `resolveSimple`; fails if any term
cannot be resolved... left-to-right sum" — for comparison with the
source-derived `evaluate_expression`. -/

/-- Split into signed terms: each maximal operator-free segment carries
the sign written immediately before it (`+` by default). -/
def splitSignedTerms : Int → List Char → List Char → List (Int × List Char)
  | sign, acc, [] => if acc = [] then [] else [(sign, acc)]
  | sign, acc, c :: cs =>
    if c = '+' ∨ c = '-' then
      (if acc = [] then [] else [(sign, acc)]) ++
        splitSignedTerms (if c = '+' then 1 else -1) [] cs
    else splitSignedTerms sign (acc ++ [c]) cs

/-- Sum of the signed terms, each resolved via `resolve_simple_value`;
unresolved if any term is. -/
def termsSum (syms : Symtab) : List (Int × List Char) → Option Int
  | [] => some 0
  | (sg, t) :: ts =>
    match resolve_simple_value syms t, termsSum syms ts with
    | some v, some s => some (sg * v + s)
    | _, _ => none

/-- Follows the spec's words (§4.2 `resolveExpression`): activates only
when the whitespace-stripped text contains `+` or `-`; splits into
signed terms, resolves each simply, sums left to right, and is
unresolved when any term is (or when there is no term at all). -/
def resolveExpressionSpec (syms : Symtab) (expr : List Char) : Option Int :=
  let e := expr.filter (fun c => c != ' ')
  if e = [] ∨ (¬ e.contains '+' ∧ ¬ e.contains '-') then none
  else
    let ts := splitSignedTerms 1 [] e
    if ts = [] then none else termsSum syms ts

/-! ## Derived classification helpers used by the theorems -/

/-- Does Pass 2 treat this raw line as an `ORG` directive?  (Non-blank,
non-label-only content whose first word uppercases to `ORG`; Pass 2
tests this before everything else, lines 375-382.) -/
def isOrgLine (raw : List Char) : Bool :=
  let line := removeComment raw
  if line = [] then false
  else
    let content := contentOf line
    if content = [] then false
    else toUpperStr (firstWord content) == "ORG".toList

/-- Number of bytes `assemble_instruction` emits on success, read off
from its branch structure. -/
def encodeLen (m : List Char) (spec : InstSpec) : Nat :=
  match spec.ty with
  | .NONE => 1
  | .REGISTER => if m = "ISZ".toList then 2 else 1
  | .REGISTER_PAIR => if m = "FIM".toList then 2 else 1
  | .IMMEDIATE => 1
  | .CONDITION => 2
  | .ADDRESS => 2
  | .DATA_BYTE => 0

/-- The mnemonics Pass 2 handles before consulting the instruction
table (`ORG`, `EQU`, `DB`/`BYTE`, `DW`/`WORD`). -/
def directiveMnemonics : List (List Char) :=
  ["ORG".toList, "EQU".toList, "DB".toList, "BYTE".toList, "DW".toList, "WORD".toList]

/-! ## Concrete programs used by the theorems -/

/-- Testable property 4: a label referenced after its declaration. -/
def progLabelBack : List (List Char) := ["L: NOP".toList, "JUN L".toList]

/-- A label referenced before its declaration (forward reference). -/
def progLabelFwd : List (List Char) := ["JUN L".toList, "L: NOP".toList]

/-- Testable property 3: `ORG 0x010` then `NOP`. -/
def progOrgPad : List (List Char) := ["ORG 0x010".toList, "NOP".toList]

/-- A code-emitting line before the first `ORG`, whose value is 0. -/
def progCodeBeforeOrgZero : List (List Char) := ["NOP".toList, "ORG 0x0".toList]

/-- Two `ORG` directives before the first code-emitting line. -/
def progTwoOrgsThenCode : List (List Char) :=
  ["ORG 0x10".toList, "ORG 0x20".toList, "NOP".toList]

/-- A code-emitting line before the first (nonzero) `ORG`. -/
def progCodeBeforeOrg : List (List Char) :=
  ["NOP".toList, "ORG 0x10".toList, "NOP".toList]

/-- An `ORG` backwards into an already-filled region, then data. -/
def progOrgRewind : List (List Char) :=
  ["NOP".toList, "NOP".toList, "ORG 0x1".toList, "DB 0xAA".toList]

/-- A single unknown mnemonic. -/
def progUnknown : List (List Char) := ["FOO".toList]

/-- A single well-formed instruction line. -/
def progNop : List (List Char) := ["NOP".toList]

/-- A jump through an expression over an undefined symbol. -/
def progUndefExpr : List (List Char) := ["JUN UNDEF+2".toList]

/-- Pass-1 state after the single line `NOP` from the initial state. -/
def stNopP1 : AsmState := { initAsm with line_number := 1, current_address := 1 }

/-- Pass-2 state after the single line `NOP` from the initial state. -/
def stNopP2 : AsmState :=
  { initAsm with
      line_number := 1, binary := [0], current_address := 1,
      listing := [⟨1, some 0, [0]⟩] }

/-- Result of `pass_two` on the single line `NOP` when `org_address`
is 5: the byte is listed at address 5. -/
def stNopOrg5 : AsmState :=
  { symbols := [], binary := [0], listing := [⟨1, some 5, [0]⟩],
    current_address := 6, org_address := 5, line_number := 1, last_label := none }

/-! # Theorems -/

/-! ## Helper lemmas -/

theorem pass1LabelBind_current_address (st : AsmState) (line : List Char) :
    (pass1LabelBind st line).current_address = st.current_address := by
  unfold pass1LabelBind
  split <;> rfl

theorem pass1LabelBind_line_number (st : AsmState) (line : List Char) :
    (pass1LabelBind st line).line_number = st.line_number := by
  unfold pass1LabelBind
  split <;> rfl

theorem pass1LabelBind_binary (st : AsmState) (line : List Char) :
    (pass1LabelBind st line).binary = st.binary := by
  unfold pass1LabelBind
  split <;> rfl

theorem emitBytesDB_length (syms : Symtab) (ln : Nat) :
    ∀ ps bs, emitBytesDB syms ln ps = .ok bs → bs.length = ps.length := by
  intro ps
  induction ps with
  | nil =>
    intro bs h
    unfold emitBytesDB at h
    cases h
    rfl
  | cons p ps ih =>
    intro bs h
    unfold emitBytesDB at h
    split at h
    · cases h
    · split at h
      · cases h
      · cases h
        simp [List.length_cons, ih _ (by assumption)]

theorem emitBytesDW_length (syms : Symtab) (ln : Nat) :
    ∀ ps bs, emitBytesDW syms ln ps = .ok bs → bs.length = 2 * ps.length := by
  intro ps
  induction ps with
  | nil =>
    intro bs h
    unfold emitBytesDW at h
    cases h
    rfl
  | cons p ps ih =>
    intro bs h
    unfold emitBytesDW at h
    split at h
    · cases h
    · split at h
      · cases h
      · cases h
        simp [List.length_cons, ih _ (by assumption)]
        ring

theorem assemble_instruction_length (syms : Symtab) (ln : Nat) (m : List Char)
    (spec : InstSpec) (ops : List Char) (bs : List Nat)
    (h : assemble_instruction syms ln m spec ops = .ok bs) :
    bs.length = encodeLen m spec := by
  rcases spec with ⟨op, ty, bits⟩
  cases ty <;>
    simp only [assemble_instruction, encodeLen] at h ⊢ <;>
    (repeat' split at h) <;>
    (try cases h) <;>
    simp_all

theorem table_len_agreement :
    (INSTRUCTION_SET.all (fun p => encodeLen p.1 p.2 == pass1InstrAdvance p.1 p.2)) = true := by
  decide

theorem lookupInst_len (m : List Char) (spec : InstSpec) (h : lookupInst m = some spec) :
    encodeLen m spec = pass1InstrAdvance m spec := by
  unfold lookupInst at h
  obtain ⟨p, hfind, hp⟩ := Option.map_eq_some'.mp h
  have hmem := List.mem_of_find?_eq_some hfind
  have hbeq := List.find?_some hfind
  have hm : p.1 = m := by simpa using hbeq
  have hall := List.all_eq_true.mp table_len_agreement p hmem
  rw [hm, hp] at hall
  simpa using hall

/-- C1: for every source line on which both passes succeed (hence for
every line of a run that completes successfully), the number of bytes
Pass 1 adds to the address cursor for that line equals the number of
bytes Pass 2 actually emits for the same line (the `bytes` field of the
listing record Pass 2 appends): 0 for blank, comment-only, label-only,
`EQU` and inline-`EQU` lines, the comma count for `DB`/`BYTE`, twice
the comma count for `DW`/`WORD`, and the table-determined 1 or 2 bytes
for recognized mnemonics.  An `ORG` line sets (rather than advances)
the cursor in Pass 1 and emits no bytes in Pass 2.  The two passes may
be at arbitrary states (in particular, different symbol tables). -/
theorem pass1_length_matches_pass2_emission (st1 st2 st1' st2' : AsmState) (raw : List Char)
    (h1 : pass1Step st1 raw = .ok st1')
    (h2 : pass2Step st2 raw = .ok st2') :
    ∃ rec, st2'.listing = st2.listing ++ [rec] ∧
      (if isOrgLine raw then rec.bytes = []
       else st1'.current_address = st1.current_address + (rec.bytes.length : Int)) := by
  unfold pass1Step at h1
  unfold pass2Step at h2
  by_cases hline : removeComment raw = []
  · rw [if_pos hline] at h1 h2
    have ho : isOrgLine raw = false := by simp [isOrgLine, hline]
    cases h1
    cases h2
    exact ⟨_, rfl, by rw [ho]; simp [pass1LabelBind_current_address]⟩
  · rw [if_neg hline] at h1 h2
    by_cases hcont : contentOf (removeComment raw) = []
    · rw [if_pos hcont] at h1 h2
      have ho : isOrgLine raw = false := by simp [isOrgLine, hline, hcont]
      cases h1
      cases h2
      exact ⟨_, rfl, by rw [ho]; simp [pass1LabelBind_current_address]⟩
    · rw [if_neg hcont] at h1 h2
      by_cases horg : toUpperStr (firstWord (contentOf (removeComment raw))) = "ORG".toList
      · rw [if_pos horg] at h2
        have ho : isOrgLine raw = true := by
          simp only [isOrgLine]
          rw [if_neg hline, if_neg hcont, horg]
          simp
        split at h2
        · cases h2
        · cases h2
          exact ⟨_, rfl, by simp [ho]⟩
      · rw [if_neg horg] at h2
        have ho : isOrgLine raw = false := by
          simp only [isOrgLine]
          rw [if_neg hline, if_neg hcont]
          simpa using horg
        by_cases hequ : toUpperStr (firstWord (contentOf (removeComment raw))) = "EQU".toList
        · rw [if_pos hequ] at h2
          cases h2
          refine ⟨_, rfl, ?_⟩
          rw [ho]
          -- Pass 1 on this line: either the inline-`EQU` branch or the
          -- `EQU` mnemonic branch; both leave the cursor unchanged.
          split at h1
          · split at h1
            · cases h1
            · cases h1
              simp [pass1LabelBind_current_address]
          · rw [if_neg horg, if_pos hequ] at h1
            split at h1
            · cases h1
            · split at h1
              · cases h1
              · split at h1
                · cases h1
                · cases h1
                  simp [pass1LabelBind_current_address]
        · rw [if_neg hequ] at h2
          split at h2
          · -- inline `EQU` recognized by both passes
            cases h2
            refine ⟨_, rfl, ?_⟩
            rw [ho]
            split at h1
            · split at h1
              · cases h1
              · cases h1
                simp [pass1LabelBind_current_address]
            · simp_all
          · -- no inline `EQU`: data directives or instruction table
            split at h1
            · simp_all
            · rw [if_neg horg, if_neg hequ] at h1
              by_cases hdb : toUpperStr (firstWord (contentOf (removeComment raw))) = "DB".toList ∨
                  toUpperStr (firstWord (contentOf (removeComment raw))) = "BYTE".toList
              · rw [if_pos hdb] at h1 h2
                split at h2
                · cases h2
                · cases h2
                  cases h1
                  refine ⟨_, rfl, ?_⟩
                  rw [ho]
                  simp [emitUpdate, pass1LabelBind_current_address,
                    emitBytesDB_length _ _ _ _ (by assumption)]
              · rw [if_neg hdb] at h1 h2
                by_cases hdw : toUpperStr (firstWord (contentOf (removeComment raw))) = "DW".toList ∨
                    toUpperStr (firstWord (contentOf (removeComment raw))) = "WORD".toList
                · rw [if_pos hdw] at h1 h2
                  split at h2
                  · cases h2
                  · cases h2
                    cases h1
                    refine ⟨_, rfl, ?_⟩
                    rw [ho]
                    simp [emitUpdate, pass1LabelBind_current_address,
                      emitBytesDW_length _ _ _ _ (by assumption)]
                · rw [if_neg hdw] at h1 h2
                  split at h2
                  · cases h2
                  · rename_i spec hspec
                    split at h2
                    · cases h2
                    · rename_i bs hbs
                      cases h2
                      rw [hspec] at h1
                      cases h1
                      refine ⟨_, rfl, ?_⟩
                      rw [ho]
                      have hlen := assemble_instruction_length _ _ _ _ _ _ hbs
                      have hagree := lookupInst_len _ _ hspec
                      simp [emitUpdate, pass1LabelBind_current_address, hlen, hagree]

/-- Witness for C1: both passes run on the line `NOP` from the initial
state; Pass 1 advances the cursor by 1 and Pass 2 emits exactly one
byte. -/
theorem pass1_length_matches_pass2_emission_witness :
    (pass1Step initAsm ("NOP".toList) =
      .ok { initAsm with line_number := 1, current_address := 1 }) ∧
    (pass2Step initAsm ("NOP".toList) =
      .ok { initAsm with
              line_number := 1, binary := [0], current_address := 1,
              listing := [⟨1, some 0, [0]⟩] }) ∧
    ∃ rec, ({ initAsm with
                line_number := 1, binary := [0], current_address := 1,
                listing := [⟨1, some 0, [0]⟩] } : AsmState).listing =
          initAsm.listing ++ [rec] ∧
      (if isOrgLine ("NOP".toList) then rec.bytes = []
       else ({ initAsm with line_number := 1, current_address := 1 } : AsmState).current_address =
         initAsm.current_address + (rec.bytes.length : Int)) := by
  refine ⟨by decide, by decide, ?_⟩
  exact pass1_length_matches_pass2_emission initAsm initAsm _ _ ("NOP".toList)
    (by decide) (by decide)

/-- C2 counterexample: a run in which an IO error occurs — the listing
file is requested but not writable — nevertheless reports success and
leaves the binary output file on disk: `write_listing` catches its
`IOError` and only prints a warning (lines 538-539), after
`write_binary` has already committed the binary (line 163).  This
contradicts the claim that every run with an IO error reports failure
and produces no output file. -/
theorem listing_io_error_keeps_binary :
    ¬ ((assemble_file (some progNop) true true false).success = false ∧
       (assemble_file (some progNop) true true false).binaryWritten = false) ∧
    assemble_file (some progNop) true true false = ⟨true, true, false⟩ := by
  decide

/-- C2 (amended): every fatal error — unreadable source, any Pass-1 or
Pass-2 `ValueError` (unresolved symbol, malformed operand count,
unknown instruction in Pass 2, `EQU` without label), or an unwritable
binary output file — makes the run report failure with no output file
written, neither binary nor listing; an IO error while writing the
listing file, however, is non-fatal: the run still reports success and
the already-written binary remains. -/
theorem fatal_errors_abort_without_output :
    (∀ (binW lReq lW : Bool),
        assemble_file none binW lReq lW = ⟨false, false, false⟩) ∧
    (∀ (lines : List (List Char)) (e : AsmError) (binW lReq lW : Bool),
        assembleProgram lines = .error e →
        assemble_file (some lines) binW lReq lW = ⟨false, false, false⟩) ∧
    (∀ (lines : List (List Char)) (st : AsmState) (lReq lW : Bool),
        assembleProgram lines = .ok st →
        assemble_file (some lines) false lReq lW = ⟨false, false, false⟩) ∧
    (∀ (lines : List (List Char)) (st : AsmState),
        assembleProgram lines = .ok st →
        assemble_file (some lines) true true false = ⟨true, true, false⟩) := by
  refine ⟨fun binW lReq lW => rfl, fun lines e binW lReq lW h => ?_,
    fun lines st lReq lW h => ?_, fun lines st h => ?_⟩ <;>
    simp [assemble_file, h]

/-- Witness for C2's amended theorem: an unknown-instruction run, a
run with an unwritable binary, and a successful run with an unwritable
listing, each at its concrete outcome. -/
theorem fatal_errors_abort_without_output_witness :
    (assemble_file none true true true = ⟨false, false, false⟩) ∧
    (assemble_file (some progUnknown) true true true = ⟨false, false, false⟩) ∧
    (assemble_file (some progNop) false true true = ⟨false, false, false⟩) ∧
    (assemble_file (some progNop) true true false = ⟨true, true, false⟩) := by
  refine ⟨fatal_errors_abort_without_output.1 true true true, ?_, ?_, ?_⟩
  · exact fatal_errors_abort_without_output.2.1 progUnknown (.unknownInstruction 1)
      true true true (by decide)
  · exact fatal_errors_abort_without_output.2.2.1 progNop
      { initAsm with line_number := 1, binary := [0], current_address := 1,
                     listing := [⟨1, some 0, [0]⟩] } true true (by decide)
  · exact fatal_errors_abort_without_output.2.2.2 progNop
      { initAsm with line_number := 1, binary := [0], current_address := 1,
                     listing := [⟨1, some 0, [0]⟩] } (by decide)

/-- C3: a line whose mnemonic is neither a directive nor an
`INSTRUCTION_SET` entry (and is not an inline `EQU`) is accepted by
Pass 1 with the cursor advanced by 0 and the binary untouched, while
Pass 2 fails on the same line with the unknown-instruction error; a
run over such a file fails and produces neither binary nor listing. -/
theorem unknown_mnemonic_warn_then_fatal :
    (∀ (st : AsmState) (raw : List Char),
        contentOf (removeComment raw) ≠ [] →
        equInline (contentOf (removeComment raw)) = none →
        toUpperStr (firstWord (contentOf (removeComment raw))) ∉ directiveMnemonics →
        lookupInst (toUpperStr (firstWord (contentOf (removeComment raw)))) = none →
        (∃ st', pass1Step st raw = .ok st' ∧
          st'.current_address = st.current_address ∧ st'.binary = st.binary) ∧
        pass2Step st raw = .error (.unknownInstruction (st.line_number + 1))) ∧
    assemble_file (some progUnknown) true true true = ⟨false, false, false⟩ := by
  constructor
  · intro st raw hcont hequ hdir hinst
    have hline : removeComment raw ≠ [] := by
      intro h
      exact hcont (by rw [h]; rfl)
    have hnO : toUpperStr (firstWord (contentOf (removeComment raw))) ≠ "ORG".toList :=
      fun h => hdir (by rw [h]; decide)
    have hnE : toUpperStr (firstWord (contentOf (removeComment raw))) ≠ "EQU".toList :=
      fun h => hdir (by rw [h]; decide)
    have hnDB : toUpperStr (firstWord (contentOf (removeComment raw))) ≠ "DB".toList :=
      fun h => hdir (by rw [h]; decide)
    have hnBY : toUpperStr (firstWord (contentOf (removeComment raw))) ≠ "BYTE".toList :=
      fun h => hdir (by rw [h]; decide)
    have hnDW : toUpperStr (firstWord (contentOf (removeComment raw))) ≠ "DW".toList :=
      fun h => hdir (by rw [h]; decide)
    have hnWO : toUpperStr (firstWord (contentOf (removeComment raw))) ≠ "WORD".toList :=
      fun h => hdir (by rw [h]; decide)
    constructor
    · unfold pass1Step
      rw [if_neg hline, if_neg hcont]
      rw [hequ]
      rw [if_neg hnO, if_neg hnE,
        if_neg (not_or.mpr ⟨hnDB, hnBY⟩), if_neg (not_or.mpr ⟨hnDW, hnWO⟩), hinst]
      exact ⟨_, rfl, pass1LabelBind_current_address _ _, pass1LabelBind_binary _ _⟩
    · unfold pass2Step
      rw [if_neg hline, if_neg hcont]
      rw [if_neg hnO, if_neg hnE, hequ,
        if_neg (not_or.mpr ⟨hnDB, hnBY⟩), if_neg (not_or.mpr ⟨hnDW, hnWO⟩), hinst]
  · decide

/-- Witness for C3: the single line `FOO` from the initial state. -/
theorem unknown_mnemonic_warn_then_fatal_witness :
    ((∃ st', pass1Step initAsm ("FOO".toList) = .ok st' ∧
        st'.current_address = initAsm.current_address ∧ st'.binary = initAsm.binary) ∧
      pass2Step initAsm ("FOO".toList) = .error (.unknownInstruction (initAsm.line_number + 1))) := by
  exact unknown_mnemonic_warn_then_fatal.1 initAsm ("FOO".toList)
    (by decide) (by decide) (by decide) (by decide)

/-- C4: in `L: NOP` followed by `JUN L`, Pass 1 binds `L` to address 0
and the whole run emits exactly `0x00, 0x40, 0x00`; with the two lines
swapped (a forward reference) `L` is bound to 2 and the run emits
`0x40, 0x02, 0x00` — labels may be referenced before or after their
declaration. -/
theorem label_backward_and_forward_reference :
    ((pass_one initAsm progLabelBack).toOption.map
        (fun st => lookupSym st.symbols ("L".toList)) = some (some 0)) ∧
    binaryOf progLabelBack = some [0x00, 0x40, 0x00] ∧
    ((pass_one initAsm progLabelFwd).toOption.map
        (fun st => lookupSym st.symbols ("L".toList)) = some (some 2)) ∧
    binaryOf progLabelFwd = some [0x40, 0x02, 0x00] := by
  decide

theorem evalLoop_eq (syms : Symtab) :
    ∀ (cs : List Char) (total : Int) (term : List Char) (sign : Int) (seen : Bool),
    evalLoop syms cs total term sign seen =
      match termsSum syms (splitSignedTerms sign term cs) with
      | none => none
      | some s =>
        if seen || !(splitSignedTerms sign term cs).isEmpty then some (total + s)
        else none := by
  intro cs
  induction cs with
  | nil =>
    intro total term sign seen
    by_cases hterm : term = []
    · subst hterm
      cases seen <;> simp [evalLoop, splitSignedTerms, termsSum]
    · rcases h : resolve_simple_value syms term with _ | v <;>
        simp [evalLoop, splitSignedTerms, termsSum, hterm, h]
  | cons c cs ih =>
    intro total term sign seen
    by_cases hop : c = '+' ∨ c = '-'
    · by_cases hterm : term = []
      · subst hterm
        simp [evalLoop, if_pos hop, splitSignedTerms, ih]
      · rcases h : resolve_simple_value syms term with _ | v
        · simp [evalLoop, if_pos hop, hterm, h, splitSignedTerms, termsSum]
        · simp only [evalLoop, if_pos hop, if_neg hterm, h, ih]
          simp only [splitSignedTerms, if_pos hop, if_neg hterm]
          rcases hts : termsSum syms
              (splitSignedTerms (if c = '+' then 1 else -1) [] cs) with _ | s <;>
            simp [termsSum, h, hts, add_assoc]
    · simp [evalLoop, hop, splitSignedTerms, ih]

theorem termsSum_none_of_member (syms : Symtab) :
    ∀ (ts : List (Int × List Char)) (sg : Int) (t : List Char),
    (sg, t) ∈ ts → resolve_simple_value syms t = none → termsSum syms ts = none := by
  intro ts
  induction ts with
  | nil => simp
  | cons p ps ih =>
    intro sg t hmem hres
    rcases List.mem_cons.mp hmem with h | h
    · rw [← h]
      simp [termsSum, hres]
    · cases h2 : resolve_simple_value syms p.2 <;>
        simp [termsSum, h2, ih _ _ h hres]

/-- C5: `resolve` on a token containing `+` or `-` that is not itself a
simple literal/register/symbol evaluates it exactly as the spec's
`resolveExpression`: a left-to-right signed sum of terms, each resolved
as a simple value (first conjunct, a full functional equality between
the source-derived evaluator and the spec-derived one).  In particular
`LABEL+2` with `LABEL` defined resolves to `LABEL`'s value plus 2
(second conjunct), any undefined term makes the whole resolution fail
with the unresolved-symbol error (third conjunct), and such a failure
is fatal: a run containing `JUN UNDEF+2` reports failure and writes no
output file (fourth conjunct). -/
theorem expression_evaluation_follows_spec :
    (∀ (syms : Symtab) (expr : List Char),
        evaluate_expression syms expr = resolveExpressionSpec syms expr) ∧
    (∀ (syms : Symtab) (ln : Nat) (v : Int),
        lookupSym syms ("LABEL".toList) = some v →
        lookupSym syms ("LABEL+2".toList) = none →
        resolve_value syms ln ("LABEL+2".toList) = .ok (v + 2)) ∧
    (∀ (syms : Symtab) (ln : Nat) (tok : List Char) (sg : Int) (t : List Char),
        trim tok ≠ [] →
        resolve_simple_value syms (trim tok) = none →
        (sg, t) ∈ splitSignedTerms 1 [] ((trim tok).filter (fun c => c != ' ')) →
        resolve_simple_value syms t = none →
        resolve_value syms ln tok = .error (.unknownSymbol ln)) ∧
    (assemble_file (some progUndefExpr) true true true = ⟨false, false, false⟩) := by
  have hmain : ∀ (syms : Symtab) (expr : List Char),
      evaluate_expression syms expr = resolveExpressionSpec syms expr := by
    intro syms expr
    unfold evaluate_expression resolveExpressionSpec
    dsimp only
    split
    · rfl
    · rw [evalLoop_eq]
      rcases hts : termsSum syms
          (splitSignedTerms 1 [] (expr.filter (fun c => c != ' '))) with _ | s
      · simp [hts]
      · by_cases hempty : splitSignedTerms 1 [] (expr.filter (fun c => c != ' ')) = []
        · rw [hempty] at hts
          cases hts
          simp [hempty]
        · simp [hts, hempty]
  refine ⟨hmain, ?_, ?_, by decide⟩
  · intro syms ln v h1 h2
    have hsimple : resolve_simple_value syms ("LABEL+2".toList) =
        lookupSym syms ("LABEL+2".toList) := rfl
    have hLBL : resolve_simple_value syms (['L', 'A', 'B', 'E', 'L']) =
        lookupSym syms ("LABEL".toList) := rfl
    unfold resolve_value
    rw [show trim ("LABEL+2".toList) = "LABEL+2".toList from by decide]
    rw [if_neg (show ¬ ("LABEL+2".toList = []) from by decide)]
    rw [hsimple, h2, hmain]
    unfold resolveExpressionSpec
    rw [if_neg (show ¬ (("LABEL+2".toList.filter (fun c => c != ' ')) = [] ∨
      (¬ ("LABEL+2".toList.filter (fun c => c != ' ')).contains '+' ∧
       ¬ ("LABEL+2".toList.filter (fun c => c != ' ')).contains '-')) from by decide)]
    rw [show splitSignedTerms 1 [] ("LABEL+2".toList.filter (fun c => c != ' ')) =
      [(1, "LABEL".toList), (1, ['2'])] from by decide]
    rw [if_neg (show ¬ ([(1, "LABEL".toList), ((1 : Int), ['2'])] :
      List (Int × List Char)) = [] from by decide)]
    have h2val : resolve_simple_value syms (['2']) = some 2 := rfl
    have h1L : lookupSym syms (['L', 'A', 'B', 'E', 'L']) = some v := h1
    simp [termsSum, hLBL, h1L, h2val]
  · intro syms ln tok sg t htok hsimple hmem hres
    have hexpr : resolveExpressionSpec syms (trim tok) = none := by
      unfold resolveExpressionSpec
      dsimp only
      split
      · rfl
      · rw [termsSum_none_of_member syms _ sg t hmem hres]
        split <;> rfl
    unfold resolve_value
    dsimp only
    rw [if_neg htok, hsimple, hmain, hexpr]

/-- Witness for C5: with the concrete table binding `LABEL` to 7,
`LABEL+2` resolves to 9; with the empty table, `UNDEF+2` fails with
the unresolved-symbol error. -/
theorem expression_evaluation_follows_spec_witness :
    resolve_value [("LABEL".toList, 7)] 3 ("LABEL+2".toList) = .ok (7 + 2) ∧
    resolve_value [] 1 ("UNDEF+2".toList) = .error (.unknownSymbol 1) := by
  constructor
  · exact expression_evaluation_follows_spec.2.1 [("LABEL".toList, 7)] 3 7
      (by decide) (by decide)
  · exact expression_evaluation_follows_spec.2.2.1 [] 1 ("UNDEF+2".toList) 1
      ("UNDEF".toList) (by decide) (by decide) (by decide) (by decide)

/-- C6: `FIM` requires 2 or 3 comma-separated operands — any other
count is the fatal malformed-operands error — and on success always
emits exactly 2 bytes: first `opcode | (pair & 0x7)`, then, in the
2-operand form, the resolved immediate masked to `0xFF`, and in the
3-operand form `(hi & 0xF) << 4 | (lo & 0xF)`; in particular
`FIM R0R1, 0x1, 0x2` emits second byte `0x12`. -/
theorem fim_operand_count_and_encoding :
    lookupInst ("FIM".toList) = some ⟨0x20, .REGISTER_PAIR, 4⟩ ∧
    (∀ (syms : Symtab) (ln : Nat) (ops : List Char),
        ¬ (((splitComma ops).map trim).length = 2 ∨ ((splitComma ops).map trim).length = 3) →
        assemble_instruction syms ln ("FIM".toList) ⟨0x20, .REGISTER_PAIR, 4⟩ ops =
          .error (.fimOperands ln)) ∧
    (∀ (syms : Symtab) (ln : Nat) (ops p0 p1 : List Char) (pair imm : Int),
        (splitComma ops).map trim = [p0, p1] →
        resolve_register_pair syms p0 = some pair →
        resolve_value syms ln p1 = .ok imm →
        assemble_instruction syms ln ("FIM".toList) ⟨0x20, .REGISTER_PAIR, 4⟩ ops =
          .ok [0x20 ||| mask3 pair, mask8 imm]) ∧
    (∀ (syms : Symtab) (ln : Nat) (ops p0 p1 p2 : List Char) (pair hi lo : Int),
        (splitComma ops).map trim = [p0, p1, p2] →
        resolve_register_pair syms p0 = some pair →
        resolve_value syms ln p1 = .ok hi →
        resolve_value syms ln p2 = .ok lo →
        assemble_instruction syms ln ("FIM".toList) ⟨0x20, .REGISTER_PAIR, 4⟩ ops =
          .ok [0x20 ||| mask3 pair, ((mask4 hi <<< 4) ||| mask4 lo) &&& 0xFF]) ∧
    (assemble_instruction [] 1 ("FIM".toList) ⟨0x20, .REGISTER_PAIR, 4⟩
        ("R0R1, 0x1, 0x2".toList) = .ok [0x20, 0x12]) := by
  refine ⟨by decide, ?_, ?_, ?_, by decide⟩
  · intro syms ln ops hcount
    unfold assemble_instruction
    dsimp only
    rw [if_pos rfl]
    rcases hps : (splitComma ops).map trim with _ | ⟨a, _ | ⟨b, _ | ⟨c, _ | ⟨d, rest⟩⟩⟩⟩
    · rfl
    · rfl
    · exact absurd (Or.inl (by rw [hps]; rfl)) hcount
    · exact absurd (Or.inr (by rw [hps]; rfl)) hcount
    · rfl
  · intro syms ln ops p0 p1 pair imm hps hpair himm
    unfold assemble_instruction
    dsimp only
    rw [if_pos rfl, hps]
    simp [hpair, himm]
  · intro syms ln ops p0 p1 p2 pair hi lo hps hpair hhi hlo
    unfold assemble_instruction
    dsimp only
    rw [if_pos rfl, hps]
    simp [hpair, hhi, hlo]

/-- Witness for C6: the concrete 3-operand and 2-operand forms, and a
1-operand line rejected. -/
theorem fim_operand_count_and_encoding_witness :
    (assemble_instruction [] 4 ("FIM".toList) ⟨0x20, .REGISTER_PAIR, 4⟩
        ("R2R3, 0x3, 0x4".toList) =
      .ok [0x20 ||| mask3 1, ((mask4 3 <<< 4) ||| mask4 4) &&& 0xFF]) ∧
    (assemble_instruction [] 4 ("FIM".toList) ⟨0x20, .REGISTER_PAIR, 4⟩
        ("R2R3, 0xAB".toList) = .ok [0x20 ||| mask3 1, mask8 0xAB]) ∧
    (assemble_instruction [] 4 ("FIM".toList) ⟨0x20, .REGISTER_PAIR, 4⟩
        ("R2R3".toList) = .error (.fimOperands 4)) := by
  refine ⟨?_, ?_, ?_⟩
  · exact fim_operand_count_and_encoding.2.2.2.1 [] 4 ("R2R3, 0x3, 0x4".toList)
      ("R2R3".toList) ("0x3".toList) ("0x4".toList) 1 3 4
      (by decide) (by decide) (by decide) (by decide)
  · exact fim_operand_count_and_encoding.2.2.1 [] 4 ("R2R3, 0xAB".toList)
      ("R2R3".toList) ("0xAB".toList) 1 0xAB (by decide) (by decide) (by decide)
  · exact fim_operand_count_and_encoding.2.1 [] 4 ("R2R3".toList) (by decide)

/-- C7: in Pass 2, an `ORG` line whose resolved address exceeds the
current output-buffer length zero-pads the buffer up to that address
(and leaves it untouched otherwise); in particular `ORG 0x010` followed
by `NOP` yields a binary of total length 17 that is all zero bytes —
offsets `0x00..0x0F` are padding and offset `0x10` holds the `NOP`
byte `0x00`. -/
theorem org_pads_binary :
    (∀ (st st' : AsmState) (raw : List Char),
        removeComment raw ≠ [] →
        contentOf (removeComment raw) ≠ [] →
        toUpperStr (firstWord (contentOf (removeComment raw))) = "ORG".toList →
        pass2Step st raw = .ok st' →
        ((st.binary.length : Int) < st'.current_address →
          st'.binary = st.binary ++
            List.replicate (st'.current_address - (st.binary.length : Int)).toNat 0) ∧
        (¬ (st.binary.length : Int) < st'.current_address →
          st'.binary = st.binary)) ∧
    binaryOf progOrgPad = some (List.replicate 17 0) ∧
    (binaryOf progOrgPad).map List.length = some 17 := by
  refine ⟨?_, by decide, by decide⟩
  intro st st' raw hline hcont horg hstep
  unfold pass2Step at hstep
  rw [if_neg hline, if_neg hcont, if_pos horg] at hstep
  split at hstep
  · cases hstep
  · cases hstep
    constructor
    · intro hlt
      simp only at hlt ⊢
      rw [if_pos hlt]
    · intro hge
      simp only at hge ⊢
      rw [if_neg hge]

/-- Pass-2 state after `ORG 0x010` from the initial state (used by the
C7 witness). -/
def stAfterOrg10 : AsmState :=
  { initAsm with line_number := 1, current_address := 16,
                 binary := List.replicate 16 0, listing := [⟨1, some 0, []⟩] }

/-- Witness for C7: `ORG 0x010` from the empty initial state pads the
binary with 16 zero bytes. -/
theorem org_pads_binary_witness :
    ((initAsm.binary.length : Int) < stAfterOrg10.current_address) ∧
    pass2Step initAsm ("ORG 0x010".toList) = .ok stAfterOrg10 ∧
    stAfterOrg10.binary = initAsm.binary ++
      List.replicate (stAfterOrg10.current_address -
        (initAsm.binary.length : Int)).toNat 0 := by
  refine ⟨by decide, by decide, ?_⟩
  exact (org_pads_binary.1 initAsm stAfterOrg10 ("ORG 0x010".toList)
    (by decide) (by decide) (by decide) (by decide)).1 (by decide)

theorem pass1LabelBind_org_address (st : AsmState) (line : List Char) :
    (pass1LabelBind st line).org_address = st.org_address := by
  unfold pass1LabelBind
  split <;> rfl

/-- Effects of one successful Pass-2 iteration: exactly one listing
record is appended, carrying either no address or the line's start
address (= the cursor before the line); an `ORG` line records no bytes
and only ever extends the binary (by padding), every other line appends
exactly its recorded bytes at the end of the binary. -/
theorem pass2Step_effects (st st' : AsmState) (raw : List Char)
    (h : pass2Step st raw = .ok st') :
    ∃ rec, st'.listing = st.listing ++ [rec] ∧
      (rec.addr = none ∨ rec.addr = some st.current_address) ∧
      (if isOrgLine raw then rec.bytes = [] ∧ ∃ t, st'.binary = st.binary ++ t
       else st'.binary = st.binary ++ rec.bytes) := by
  unfold pass2Step at h
  by_cases hline : removeComment raw = []
  · rw [if_pos hline] at h
    have ho : isOrgLine raw = false := by simp [isOrgLine, hline]
    cases h
    exact ⟨_, rfl, Or.inl rfl, by simp [ho]⟩
  · rw [if_neg hline] at h
    by_cases hcont : contentOf (removeComment raw) = []
    · rw [if_pos hcont] at h
      have ho : isOrgLine raw = false := by simp [isOrgLine, hline, hcont]
      cases h
      exact ⟨_, rfl, Or.inl rfl, by simp [ho]⟩
    · rw [if_neg hcont] at h
      by_cases horg : toUpperStr (firstWord (contentOf (removeComment raw))) = "ORG".toList
      · rw [if_pos horg] at h
        have ho : isOrgLine raw = true := by
          simp only [isOrgLine]
          rw [if_neg hline, if_neg hcont, horg]
          simp
        split at h
        · cases h
        · cases h
          refine ⟨_, rfl, Or.inr rfl, ?_⟩
          rw [ho]
          refine ⟨rfl, ?_⟩
          split
          · exact ⟨_, rfl⟩
          · exact ⟨[], (List.append_nil _).symm⟩
      · rw [if_neg horg] at h
        have ho : isOrgLine raw = false := by
          simp only [isOrgLine]
          rw [if_neg hline, if_neg hcont]
          simpa using horg
        by_cases hequ : toUpperStr (firstWord (contentOf (removeComment raw))) = "EQU".toList
        · rw [if_pos hequ] at h
          cases h
          exact ⟨_, rfl, Or.inl rfl, by simp [ho]⟩
        · rw [if_neg hequ] at h
          split at h
          · cases h
            exact ⟨_, rfl, Or.inl rfl, by simp [ho]⟩
          · split at h
            · split at h
              · cases h
              · cases h
                exact ⟨_, rfl, Or.inr rfl, by simp [ho, emitUpdate]⟩
            · split at h
              · split at h
                · cases h
                · cases h
                  exact ⟨_, rfl, Or.inr rfl, by simp [ho, emitUpdate]⟩
              · split at h
                · cases h
                · split at h
                  · cases h
                  · cases h
                    exact ⟨_, rfl, Or.inr rfl, by simp [ho, emitUpdate]⟩

theorem pass2Fold_binary_extends :
    ∀ (lines : List (List Char)) (st st' : AsmState),
    pass2Fold st lines = .ok st' → ∃ t, st'.binary = st.binary ++ t := by
  intro lines
  induction lines with
  | nil =>
    intro st st' h
    cases h
    exact ⟨[], (List.append_nil _).symm⟩
  | cons l ls ih =>
    intro st st' h
    unfold pass2Fold at h
    split at h
    · cases h
    · rename_i st1 hstep
      obtain ⟨rec, _, _, hbin⟩ := pass2Step_effects _ _ _ hstep
      obtain ⟨t2, ht2⟩ := ih _ _ h
      have hb1 : ∃ t1, st1.binary = st.binary ++ t1 := by
        split at hbin
        · exact hbin.2
        · exact ⟨rec.bytes, hbin⟩
      obtain ⟨t1, ht1⟩ := hb1
      exact ⟨t1 ++ t2, by rw [ht2, ht1, List.append_assoc]⟩

theorem pass2Fold_listing_extends :
    ∀ (lines : List (List Char)) (st st' : AsmState),
    pass2Fold st lines = .ok st' → ∃ t, st'.listing = st.listing ++ t := by
  intro lines
  induction lines with
  | nil =>
    intro st st' h
    cases h
    exact ⟨[], (List.append_nil _).symm⟩
  | cons l ls ih =>
    intro st st' h
    unfold pass2Fold at h
    split at h
    · cases h
    · rename_i st1 hstep
      obtain ⟨rec, hlist, _, _⟩ := pass2Step_effects _ _ _ hstep
      obtain ⟨t2, ht2⟩ := ih _ _ h
      exact ⟨[rec] ++ t2, by rw [ht2, hlist, List.append_assoc]⟩

theorem pass1Step_org_address (st st' : AsmState) (raw : List Char)
    (ho : isOrgLine raw = false) (h : pass1Step st raw = .ok st') :
    st'.org_address = st.org_address := by
  unfold pass1Step at h
  by_cases hline : removeComment raw = []
  · rw [if_pos hline] at h
    cases h
    rfl
  · rw [if_neg hline] at h
    by_cases hcont : contentOf (removeComment raw) = []
    · rw [if_pos hcont] at h
      cases h
      exact pass1LabelBind_org_address _ _
    · rw [if_neg hcont] at h
      have horg : toUpperStr (firstWord (contentOf (removeComment raw))) ≠ "ORG".toList := by
        simp only [isOrgLine] at ho
        rw [if_neg hline, if_neg hcont] at ho
        simpa using ho
      split at h
      · split at h
        · cases h
        · cases h
          simp [pass1LabelBind_org_address]
      · rw [if_neg horg] at h
        by_cases hequ : toUpperStr (firstWord (contentOf (removeComment raw))) = "EQU".toList
        · rw [if_pos hequ] at h
          split at h
          · cases h
          · split at h
            · cases h
            · split at h
              · cases h
              · cases h
                simp [pass1LabelBind_org_address]
        · rw [if_neg hequ] at h
          split at h
          · cases h
            simp [pass1LabelBind_org_address]
          · split at h
            · cases h
              simp [pass1LabelBind_org_address]
            · split at h
              · cases h
                simp [pass1LabelBind_org_address]
              · cases h
                simp [pass1LabelBind_org_address]

/-- C8 counterexample: two programs inside the claim's scope in which
no line receives different addresses in the two passes.  In
`progCodeBeforeOrgZero` the code-emitting `NOP` precedes the first
`ORG`, whose value is 0, so `org_address` ends at 0 and every line's
Pass-2 address equals its Pass-1 address (both traces are `[0, 1]`).
In `progTwoOrgsThenCode` more than one `ORG` precedes the first code,
yet the only code-emitting line receives address `0x20` in both passes
(the traces differ only on the non-code `ORG` lines' display
addresses, and the claim speaks of the code-emitting lines). -/
theorem pass2_addresses_equal_despite_code_before_org :
    (pass1Trace progCodeBeforeOrgZero = .ok [0, 1] ∧
     pass2Addrs progCodeBeforeOrgZero = some [some 0, some 1]) ∧
    (pass1Trace progTwoOrgsThenCode = .ok [0, 16, 32] ∧
     pass2Addrs progTwoOrgsThenCode = some [some 32, some 16, some 32]) := by
  decide

/-- C8 (amended): Pass 2 initializes its address cursor to
`org_address` — the value set by the last `ORG` directive processed in
Pass 1, 0 when no line is an `ORG` — and not to 0; the first line of a
program is therefore listed at `org_address` when it emits code.
Consequently code-emitting lines preceding the first `ORG` receive
different addresses in the two passes exactly when that initialization
differs from Pass 1's starting cursor 0: in `progCodeBeforeOrg` (a
`NOP` before `ORG 0x10`) the first line has Pass-1 address 0 but
Pass-2 address `0x10`. -/
theorem pass2_cursor_starts_at_last_org :
    (∀ (st : AsmState) (lines : List (List Char)) (st' : AsmState),
        (∀ raw ∈ lines, isOrgLine raw = false) →
        pass1Fold st lines = .ok st' →
        st'.org_address = st.org_address) ∧
    (∀ (st st' : AsmState) (raw : List Char) (rest : List (List Char)),
        pass_two st (raw :: rest) = .ok st' →
        ∃ rec t, st'.listing = rec :: t ∧
          (rec.addr = none ∨ rec.addr = some st.org_address)) ∧
    (pass1Trace progCodeBeforeOrg = .ok [0, 1, 16] ∧
     pass2Addrs progCodeBeforeOrg = some [some 16, some 17, some 16]) := by
  refine ⟨?_, ?_, by decide⟩
  · intro st lines
    induction lines generalizing st with
    | nil =>
      intro st' _ h
      cases h
      rfl
    | cons l ls ih =>
      intro st' hno h
      unfold pass1Fold at h
      split at h
      · cases h
      · rename_i st1 hstep
        have h1 := pass1Step_org_address _ _ _ (hno l (List.mem_cons_self _ _)) hstep
        have h2 := ih st1 st' (fun raw hr => hno raw (List.mem_cons_of_mem _ hr)) h
        rw [h2, h1]
  · intro st st' raw rest h
    unfold pass_two at h
    unfold pass2Fold at h
    split at h
    · cases h
    · rename_i st1 hstep
      obtain ⟨rec, hlist, haddr, _⟩ := pass2Step_effects _ _ _ hstep
      obtain ⟨t, ht⟩ := pass2Fold_listing_extends _ _ _ h
      refine ⟨rec, t, ?_, ?_⟩
      · rw [ht, hlist]
        simp
      · simpa using haddr

/-- Witness for C8's amended theorem: a no-`ORG` program keeps
`org_address` at its initial value, and with `org_address = 5` the
first line of `NOP` is listed at address 5. -/
theorem pass2_cursor_starts_at_last_org_witness :
    (∃ st', pass1Fold initAsm progNop = .ok st' ∧ st'.org_address = initAsm.org_address) ∧
    (∃ rec t,
      (∃ st', pass_two { initAsm with org_address := 5 } progNop = .ok st' ∧
        st'.listing = rec :: t) ∧
      (rec.addr = none ∨
        rec.addr = some ({ initAsm with org_address := 5 } : AsmState).org_address)) := by
  constructor
  · refine ⟨stNopP1, by decide, ?_⟩
    exact pass2_cursor_starts_at_last_org.1 initAsm progNop stNopP1 (by decide) (by decide)
  · have h : pass_two { initAsm with org_address := 5 } progNop = .ok stNopOrg5 := by decide
    obtain ⟨rec, t, hlist, haddr⟩ :=
      pass2_cursor_starts_at_last_org.2.1 { initAsm with org_address := 5 } _
        ("NOP".toList) [] h
    exact ⟨rec, t, ⟨_, h, hlist⟩, haddr⟩

/-- C9: during Pass 2 the output buffer is append-only — each step, and
any run of steps, only ever appends to the binary (so its length never
decreases and `ORG` never truncates or rewinds it), and every non-`ORG`
line's emitted bytes are placed exactly at the then-current end of the
buffer.  Hence in `progOrgRewind`, after `ORG 0x1` rewinds the cursor
below the buffer length 2, the `DB 0xAA` byte lands at offset 2 (the
old buffer end) even though its listed address is 1. -/
theorem pass2_binary_append_only :
    (∀ (st st' : AsmState) (raw : List Char),
        pass2Step st raw = .ok st' → ∃ t, st'.binary = st.binary ++ t) ∧
    (∀ (lines : List (List Char)) (st st' : AsmState),
        pass2Fold st lines = .ok st' → ∃ t, st'.binary = st.binary ++ t) ∧
    (∀ (st st' : AsmState) (raw : List Char),
        pass2Step st raw = .ok st' → isOrgLine raw = false →
        ∃ rec, st'.listing = st.listing ++ [rec] ∧ st'.binary = st.binary ++ rec.bytes) ∧
    (binaryOf progOrgRewind = some [0x00, 0x00, 0xAA] ∧
     pass2Addrs progOrgRewind = some [some 1, some 2, some 3, some 1]) := by
  refine ⟨?_, pass2Fold_binary_extends, ?_, by decide⟩
  · intro st st' raw h
    obtain ⟨rec, _, _, hbin⟩ := pass2Step_effects _ _ _ h
    split at hbin
    · exact hbin.2
    · exact ⟨rec.bytes, hbin⟩
  · intro st st' raw h ho
    obtain ⟨rec, hlist, _, hbin⟩ := pass2Step_effects _ _ _ h
    rw [ho] at hbin
    exact ⟨rec, hlist, hbin⟩

/-- Witness for C9: one `NOP` step appends its byte at the end of the
buffer, and a two-line fold only appends. -/
theorem pass2_binary_append_only_witness :
    (∃ t, stNopP2.binary = initAsm.binary ++ t) ∧
    (∃ rec, stNopP2.listing = initAsm.listing ++ [rec] ∧
        stNopP2.binary = initAsm.binary ++ rec.bytes) := by
  constructor
  · exact pass2_binary_append_only.1 initAsm stNopP2 ("NOP".toList) (by decide)
  · exact pass2_binary_append_only.2.2.1 initAsm stNopP2 ("NOP".toList) (by decide) (by decide)

/-- C10: where a register operand is expected, a literal `Rn` is
accepted, and so is a defined symbol whose value lies in `0..15` (as
that register number); a symbol value outside `0..15` is rejected.
Where a register-pair operand is expected, besides the compound
`ReRe+1` literal (which yields `e/2`), any register-resolvable token —
literal `Rn` or such a symbol — with an even value `v` is accepted and
yields pair index `v/2`, while an odd value is rejected.  The concrete
conjuncts: symbol `X = 11` is register 11, symbol `P = 4` is pair 2,
and symbol `P = 5` is rejected as a pair. -/
theorem register_symbol_resolution :
    (∀ (syms : Symtab) (tok : List Char) (r : Int),
        parse_register tok = some r → resolve_register syms tok = some r) ∧
    (∀ (syms : Symtab) (tok : List Char) (v : Int),
        parse_register tok = none →
        lookupSym syms (normalizeSymbol tok) = some v →
        (0 ≤ v ∧ v ≤ 15 → resolve_register syms tok = some v) ∧
        (¬ (0 ≤ v ∧ v ≤ 15) → resolve_register syms tok = none)) ∧
    (∀ (syms : Symtab) (tok : List Char) (p : Int),
        parse_register_pair tok = some p → resolve_register_pair syms tok = some p) ∧
    (∀ (syms : Symtab) (tok : List Char) (v : Int),
        parse_register_pair tok = none →
        resolve_register syms tok = some v →
        (v % 2 = 0 → resolve_register_pair syms tok = some (v / 2)) ∧
        (v % 2 ≠ 0 → resolve_register_pair syms tok = none)) ∧
    resolve_register [("X".toList, 11)] ("X".toList) = some 11 ∧
    resolve_register_pair [("P".toList, 4)] ("P".toList) = some 2 ∧
    resolve_register_pair [("P".toList, 5)] ("P".toList) = none := by
  refine ⟨?_, ?_, ?_, ?_, by decide, by decide, by decide⟩
  · intro syms tok r h
    unfold resolve_register
    rw [h]
  · intro syms tok v hreg hsym
    unfold resolve_register
    rw [hreg, hsym]
    dsimp only
    constructor
    · intro hrange
      rw [if_pos hrange]
    · intro hrange
      rw [if_neg hrange]
  · intro syms tok p h
    unfold resolve_register_pair
    rw [h]
  · intro syms tok v hpair hreg
    unfold resolve_register_pair
    rw [hpair, hreg]
    dsimp only
    constructor
    · intro heven
      rw [if_pos heven]
    · intro hodd
      rw [if_neg hodd]

/-- Witness for C10: literal `R7` as a register, symbol `X = 11` in
range, symbol `Y = 16` out of range, literal `R2R3` as a pair, even
symbol `P = 4` and literal `R6` as pairs, odd `R7` rejected. -/
theorem register_symbol_resolution_witness :
    resolve_register [] ("R7".toList) = some 7 ∧
    resolve_register [("X".toList, 11)] ("X".toList) = some 11 ∧
    resolve_register [("Y".toList, 16)] ("Y".toList) = none ∧
    resolve_register_pair [] ("R2R3".toList) = some 1 ∧
    resolve_register_pair [("P".toList, 4)] ("P".toList) = some (4 / 2) ∧
    resolve_register_pair [] ("R6".toList) = some (6 / 2) ∧
    resolve_register_pair [] ("R7".toList) = none := by
  refine ⟨?_, ?_, ?_, ?_, ?_, ?_, ?_⟩
  · exact register_symbol_resolution.1 [] ("R7".toList) 7 (by decide)
  · exact (register_symbol_resolution.2.1 [("X".toList, 11)] ("X".toList) 11
      (by decide) (by decide)).1 (by decide)
  · exact (register_symbol_resolution.2.1 [("Y".toList, 16)] ("Y".toList) 16
      (by decide) (by decide)).2 (by decide)
  · exact register_symbol_resolution.2.2.1 [] ("R2R3".toList) 1 (by decide)
  · exact (register_symbol_resolution.2.2.2.1 [("P".toList, 4)] ("P".toList) 4
      (by decide) (by decide)).1 (by decide)
  · exact (register_symbol_resolution.2.2.2.1 [] ("R6".toList) 6
      (by decide) (by decide)).1 (by decide)
  · exact (register_symbol_resolution.2.2.2.1 [] ("R7".toList) 7
      (by decide) (by decide)).2 (by decide)

end Asm4004
